import Mathlib

/-!
Verification of the metadata-enrichment and translation pipeline of the
ReviewNow repository (`src/metadata_enricher.py`).  Text is modelled as
`List Char` (Python strings, character-indexed).  External HTTP effects are
modelled as oracle functions supplied as parameters; exceptions raised by a
backend are modelled with `Except Unit`.
-/

set_option maxHeartbeats 1000000

/-- Largest index `i < e` with `p i = true`, scanning downward.
Building block for Python's `str.rfind(sub, start, end)`. -/
def rfindAux (p : Nat → Bool) : Nat → Option Nat
  | 0 => none
  | n + 1 => if p n then some n else rfindAux p n

/-- Python `text.rfind(c1 + c2, s, e)` for a two-character pattern:
the match must lie entirely inside the slice `[s, e)`. -/
def rfind2 (text : List Char) (c1 c2 : Char) (s e : Nat) : Option Nat :=
  rfindAux (fun i => decide (s ≤ i ∧ i + 2 ≤ e ∧
    text.get? i = some c1 ∧ text.get? (i + 1) = some c2)) e

/-- Python `text.rfind(c, s, e)` for a one-character pattern. -/
def rfind1 (text : List Char) (c : Char) (s e : Nat) : Option Nat :=
  rfindAux (fun i => decide (s ≤ i ∧ i + 1 ≤ e ∧ text.get? i = some c)) e

/-- Python `max` over `rfind` results, where "not found" (-1) is `none`:
any found index (≥ 0) beats -1, and two found indices compare by `Nat.max`. -/
def omax : Option Nat → Option Nat → Option Nat
  | none, b => b
  | some a, none => some a
  | some a, some b => some (if a ≤ b then b else a)

/-- `metadata_enricher.py` lines 92-99: the `max` of the six `rfind` calls
looking for a sentence terminator followed by a space or newline. -/
def sentence_end (text : List Char) (s e : Nat) : Option Nat :=
  omax (rfind2 text '.' ' ' s e) (omax (rfind2 text '?' ' ' s e)
    (omax (rfind2 text '!' ' ' s e) (omax (rfind2 text '.' '\n' s e)
      (omax (rfind2 text '?' '\n' s e) (rfind2 text '!' '\n' s e)))))

/-- `metadata_enricher.py` lines 92-105: the split point chosen for the
window starting at `s`: the rightmost sentence end, else the rightmost
space, else the hard cut at `s + maxSize - 1`. -/
def boundary (text : List Char) (maxSize s : Nat) : Nat :=
  match sentence_end text s (s + maxSize) with
  | some i => i
  | none =>
    match rfind1 text ' ' s (s + maxSize) with
    | some j => j
    | none => s + maxSize - 1

/-- The `while start < len(text)` loop of `chunk_text`
(`metadata_enricher.py` lines 82-109), with explicit fuel.  For
`maxSize ≥ 1` a fuel of `text.length` always suffices (proved below). -/
def chunkLoop (text : List Char) (maxSize : Nat) : Nat → Nat → List (List Char)
  | 0, _ => []
  | fuel + 1, start =>
    if start < text.length then
      if text.length ≤ start + maxSize then
        [text.drop start]
      else
        ((text.drop start).take (boundary text maxSize start + 1 - start))
          :: chunkLoop text maxSize fuel (boundary text maxSize start + 1)
    else []

/-- `MetadataEnricher.chunk_text` (`metadata_enricher.py` lines 64-111).
The Python default `max_chunk_size=450` is passed explicitly at call sites. -/
def chunk_text (text : List Char) (maxSize : Nat) : List (List Char) :=
  if text = [] ∨ text.length ≤ maxSize then [text]
  else chunkLoop text maxSize text.length 0

theorem rfindAux_some {p : Nat → Bool} :
    ∀ {e i : Nat}, rfindAux p e = some i → p i = true ∧ i < e := by
  intro e
  induction e with
  | zero => intro i h; simp [rfindAux] at h
  | succ n ih =>
    intro i h
    simp only [rfindAux] at h
    by_cases hp : p n = true
    · rw [if_pos hp] at h
      injection h with h
      subst h
      exact ⟨hp, Nat.lt_succ_self _⟩
    · rw [if_neg hp] at h
      obtain ⟨h1, h2⟩ := ih h
      exact ⟨h1, Nat.lt_succ_of_lt h2⟩

theorem omax_some {a b : Option Nat} {i : Nat} (h : omax a b = some i) :
    a = some i ∨ b = some i := by
  cases a with
  | none => right; simpa [omax] using h
  | some x =>
    cases b with
    | none => left; simpa [omax] using h
    | some y =>
      simp only [omax, Option.some.injEq] at h
      split at h
      · right; rw [h]
      · left; rw [h]

theorem rfind2_some {text : List Char} {c1 c2 : Char} {s e i : Nat}
    (h : rfind2 text c1 c2 s e = some i) : s ≤ i ∧ i + 2 ≤ e := by
  obtain ⟨hp, _⟩ := rfindAux_some h
  have hd := of_decide_eq_true hp
  exact ⟨hd.1, hd.2.1⟩

theorem rfind1_some {text : List Char} {c : Char} {s e i : Nat}
    (h : rfind1 text c s e = some i) : s ≤ i ∧ i + 1 ≤ e := by
  obtain ⟨hp, _⟩ := rfindAux_some h
  have hd := of_decide_eq_true hp
  exact ⟨hd.1, hd.2.1⟩

theorem sentence_end_some {text : List Char} {s e i : Nat}
    (h : sentence_end text s e = some i) : s ≤ i ∧ i + 2 ≤ e := by
  unfold sentence_end at h
  rcases omax_some h with h | h
  · exact rfind2_some h
  rcases omax_some h with h | h
  · exact rfind2_some h
  rcases omax_some h with h | h
  · exact rfind2_some h
  rcases omax_some h with h | h
  · exact rfind2_some h
  rcases omax_some h with h | h
  · exact rfind2_some h
  · exact rfind2_some h

theorem boundary_ge (text : List Char) (maxSize s : Nat) (h : 1 ≤ maxSize) :
    s ≤ boundary text maxSize s := by
  cases hse : sentence_end text s (s + maxSize) with
  | some i =>
    simp only [boundary, hse]
    exact (sentence_end_some hse).1
  | none =>
    cases hsp : rfind1 text ' ' s (s + maxSize) with
    | some j =>
      simp only [boundary, hse, hsp]
      exact (rfind1_some hsp).1
    | none =>
      simp only [boundary, hse, hsp]
      omega

theorem boundary_lt (text : List Char) (maxSize s : Nat) (h : 1 ≤ maxSize) :
    boundary text maxSize s < s + maxSize := by
  cases hse : sentence_end text s (s + maxSize) with
  | some i =>
    simp only [boundary, hse]
    have := (sentence_end_some hse).2
    omega
  | none =>
    cases hsp : rfind1 text ' ' s (s + maxSize) with
    | some j =>
      simp only [boundary, hse, hsp]
      have := (rfind1_some hsp).2
      omega
    | none =>
      simp only [boundary, hse, hsp]
      omega

theorem take_drop_chunk (l : List Char) (s e : Nat) (hse : s ≤ e) :
    List.take (e - s) (l.drop s) ++ l.drop e = l.drop s := by
  have h := List.take_append_drop (e - s) (l.drop s)
  rw [List.drop_drop] at h
  have h2 : e - s + s = e := by omega
  have h3 : s + (e - s) = e := by omega
  simp only [h2, h3] at h
  exact h

theorem chunkLoop_join {text : List Char} {maxSize : Nat} (h1 : 1 ≤ maxSize) :
    ∀ fuel start, text.length - start ≤ fuel →
      (chunkLoop text maxSize fuel start).flatten = text.drop start := by
  intro fuel
  induction fuel with
  | zero =>
    intro start hf
    have hls : text.length ≤ start := by omega
    simp [chunkLoop, List.drop_eq_nil_of_le hls]
  | succ n ih =>
    intro start hf
    by_cases hs : start < text.length
    · by_cases hend : text.length ≤ start + maxSize
      · simp [chunkLoop, hs, hend]
      · have hb1 := boundary_ge text maxSize start h1
        have hb2 := boundary_lt text maxSize start h1
        simp only [chunkLoop, if_pos hs, if_neg hend, List.flatten_cons]
        rw [ih (boundary text maxSize start + 1) (by omega)]
        exact take_drop_chunk text start (boundary text maxSize start + 1) (by omega)
    · have hls : text.length ≤ start := by omega
      simp [chunkLoop, hs, List.drop_eq_nil_of_le hls]

theorem chunkLoop_mem {text : List Char} {maxSize : Nat} (h1 : 1 ≤ maxSize) :
    ∀ fuel start c, c ∈ chunkLoop text maxSize fuel start →
      c.length ≤ maxSize ∧ c ≠ [] := by
  intro fuel
  induction fuel with
  | zero => intro start c hc; simp [chunkLoop] at hc
  | succ n ih =>
    intro start c hc
    by_cases hs : start < text.length
    · by_cases hend : text.length ≤ start + maxSize
      · simp only [chunkLoop, if_pos hs, if_pos hend, List.mem_singleton] at hc
        subst hc
        constructor
        · rw [List.length_drop]; omega
        · rw [← List.length_pos, List.length_drop]; omega
      · simp only [chunkLoop, if_pos hs, if_neg hend, List.mem_cons] at hc
        rcases hc with rfl | hc
        · have hb1 := boundary_ge text maxSize start h1
          have hb2 := boundary_lt text maxSize start h1
          constructor
          · rw [List.length_take]
            exact le_trans (Nat.min_le_left _ _) (by omega)
          · rw [← List.length_pos, List.length_take, List.length_drop]
            omega
        · exact ih _ _ hc
    · simp [chunkLoop, hs] at hc

theorem chunkLoop_fuel {text : List Char} {maxSize : Nat} (h1 : 1 ≤ maxSize) :
    ∀ fuel fuel' start, text.length - start ≤ fuel → text.length - start ≤ fuel' →
      chunkLoop text maxSize fuel start = chunkLoop text maxSize fuel' start := by
  intro fuel
  induction fuel with
  | zero =>
    intro fuel' start hf hf'
    have hns : ¬ start < text.length := by omega
    cases fuel' with
    | zero => rfl
    | succ m => simp [chunkLoop, hns]
  | succ n ih =>
    intro fuel' start hf hf'
    cases fuel' with
    | zero =>
      have hns : ¬ start < text.length := by omega
      simp [chunkLoop, hns]
    | succ m =>
      by_cases hs : start < text.length
      · by_cases hend : text.length ≤ start + maxSize
        · simp [chunkLoop, hs, hend]
        · have hb1 := boundary_ge text maxSize start h1
          simp only [chunkLoop, if_pos hs, if_neg hend]
          congr 1
          exact ih m _ (by omega) (by omega)
      · simp [chunkLoop, hs]

theorem chunk_text_of_le {text : List Char} {maxSize : Nat}
    (h : text.length ≤ maxSize) : chunk_text text maxSize = [text] := by
  simp [chunk_text, h]

theorem chunk_text_join_aux {text : List Char} {maxSize : Nat}
    (h1 : 1 ≤ maxSize) : (chunk_text text maxSize).flatten = text := by
  unfold chunk_text
  by_cases h : text = [] ∨ text.length ≤ maxSize
  · simp [h]
  · rw [if_neg h, chunkLoop_join h1 _ 0 (by omega)]
    simp

theorem chunk_text_mem_length {text : List Char} {maxSize : Nat}
    (h1 : 1 ≤ maxSize) : ∀ c ∈ chunk_text text maxSize, c.length ≤ maxSize := by
  intro c hc
  unfold chunk_text at hc
  by_cases h : text = [] ∨ text.length ≤ maxSize
  · rw [if_pos h] at hc
    simp only [List.mem_singleton] at hc
    subst hc
    rcases h with h | h
    · simp [h]
    · exact h
  · rw [if_neg h] at hc
    exact (chunkLoop_mem h1 _ _ c hc).1

theorem chunk_text_mem_ne {text : List Char} {maxSize : Nat}
    (h1 : 1 ≤ maxSize) (hne : text ≠ []) :
    ∀ c ∈ chunk_text text maxSize, c ≠ [] := by
  intro c hc
  unfold chunk_text at hc
  by_cases h : text = [] ∨ text.length ≤ maxSize
  · rw [if_pos h] at hc
    simp only [List.mem_singleton] at hc
    subst hc
    exact hne
  · rw [if_neg h] at hc
    exact (chunkLoop_mem h1 _ _ c hc).2

theorem chunk_text_ne_nil (text : List Char) (maxSize : Nat) :
    chunk_text text maxSize ≠ [] := by
  unfold chunk_text
  by_cases h : text = [] ∨ text.length ≤ maxSize
  · simp [h]
  · rw [if_neg h]
    push_neg at h
    have hlen : 0 < text.length := List.length_pos.mpr h.1
    obtain ⟨m, hm⟩ : ∃ m, text.length = m + 1 := ⟨text.length - 1, by omega⟩
    rw [hm]
    simp only [chunkLoop]
    rw [if_pos (by omega : (0 : Nat) < text.length)]
    split
    · simp
    · simp

/-- C5: for every text and every `max_size ≥ 1`, `chunk_text` returns a
non-empty finite ordered list of strings in which every element has
length at most `max_size`. -/
theorem chunk_text_bounded (text : List Char) (maxSize : Nat) (h : 1 ≤ maxSize) :
    chunk_text text maxSize ≠ [] ∧ ∀ c ∈ chunk_text text maxSize, c.length ≤ maxSize :=
  ⟨chunk_text_ne_nil text maxSize, chunk_text_mem_length h⟩

theorem chunk_text_bounded_witness :
    1 ≤ 4 ∧ (chunk_text ("ab. cd ef".data) 4 ≠ [] ∧
      ∀ c ∈ chunk_text ("ab. cd ef".data) 4, c.length ≤ 4) :=
  ⟨by decide, chunk_text_bounded ("ab. cd ef".data) 4 (by decide)⟩

/-- C6: the `chunk_text` loop terminates for every text and `max_size ≥ 1`:
the chosen split point is never left of the current offset, so the offset
advances by at least 1 each iteration, and a fuel of `text.length`
iterations is always enough — any fuel at least `text.length` computes the
same chunk list. -/
theorem chunk_text_terminates (text : List Char) (maxSize s fuel : Nat)
    (h : 1 ≤ maxSize) (hf : text.length ≤ fuel) :
    s ≤ boundary text maxSize s ∧
      chunkLoop text maxSize fuel 0 = chunkLoop text maxSize text.length 0 :=
  ⟨boundary_ge text maxSize s h,
   chunkLoop_fuel h fuel text.length 0 (by omega) (by omega)⟩

theorem chunk_text_terminates_witness :
    (1 ≤ 4 ∧ ("ab. cd ef".data).length ≤ 20) ∧
    (0 ≤ boundary ("ab. cd ef".data) 4 0 ∧
      chunkLoop ("ab. cd ef".data) 4 20 0
        = chunkLoop ("ab. cd ef".data) 4 (("ab. cd ef".data).length) 0) :=
  ⟨⟨by decide, by decide⟩,
   chunk_text_terminates ("ab. cd ef".data) 4 0 20 (by decide) (by decide)⟩

/-- C7: concatenating the chunks returned by `chunk_text` with no separator
reproduces the original text exactly: no character is dropped or
duplicated. -/
theorem chunk_text_concat (text : List Char) (maxSize : Nat) (h : 1 ≤ maxSize) :
    (chunk_text text maxSize).flatten = text :=
  chunk_text_join_aux h

theorem chunk_text_concat_witness :
    1 ≤ 3 ∧ (chunk_text ("ab cd efgh".data) 3).flatten = "ab cd efgh".data :=
  ⟨by decide, chunk_text_concat ("ab cd efgh".data) 3 (by decide)⟩

/-- C9: for every text with `len(text) <= max_size` (including the empty
text), `chunk_text` returns exactly the single-element list `[text]`. -/
theorem chunk_text_single (text : List Char) (maxSize : Nat)
    (h : text.length ≤ maxSize) : chunk_text text maxSize = [text] :=
  chunk_text_of_le h

theorem chunk_text_single_witness :
    ("ab".data).length ≤ 450 ∧ chunk_text ("ab".data) 450 = ["ab".data] :=
  ⟨by decide, chunk_text_single ("ab".data) 450 (by decide)⟩

/-- `MetadataEnricher.contains_chinese` (`metadata_enricher.py` lines 58-62):
Python `re.search(r'[一-鿿]', text)` is a scan for any character in
the CJK range U+4E00-U+9FFF; the empty string yields `False`. -/
def contains_chinese (text : List Char) : Bool :=
  text.any (fun c => decide (0x4e00 ≤ c.toNat ∧ c.toNat ≤ 0x9fff))

/-- Outcome of the secondary backend's HTTP request
(`requests.get` + `response.json()` in `google_translate`): the request (or
the later JSON parsing) may raise, or it yields a status code and, when the
body parses, the segment list `result[0]` with each entry's `sentence[0]`
(possibly null). -/
inductive GOut where
  | raise : GOut
  | resp : Nat → Except Unit (List (Option (List Char))) → GOut

/-- `MetadataEnricher.google_translate` (`metadata_enricher.py` lines
113-146) over the HTTP oracle `g` (arguments: text, to_lang, from_lang).
Every failure path catches and returns the input text; on success the
truthy segments are concatenated in order (lines 138-141). -/
def google_translate (g : List Char → List Char → List Char → GOut)
    (text to_lang from_lang : List Char) : List Char :=
  match g text to_lang from_lang with
  | GOut.raise => text
  | GOut.resp status parsed =>
    if status ≠ 200 then text
    else
      match parsed with
      | Except.error _ => text
      | Except.ok segs =>
        segs.foldl (fun acc o =>
          match o with
          | some s => if s = [] then acc else acc ++ s
          | none => acc) []

/-- The two external translation backends as oracles.  `primary` is
`translate.Translator(to_lang, from_lang).translate(chunk)`, which may
raise (`Except.error`); `google` is the HTTP layer under
`google_translate`. -/
structure TransEnv where
  primary : List Char → List Char → List Char → Except Unit (List Char)
  google : List Char → List Char → List Char → GOut

/-- The mutable session state of one `MetadataEnricher` instance
(`metadata_enricher.py` lines 13-16): translation cache, primary-backend
failure count, and the sticky use-Google flag. -/
structure EnricherState where
  translation_cache : List (List Char × List Char)
  translation_fail_count : Nat
  use_google_translate : Bool

/-- `MetadataEnricher.__init__`: empty cache, zero failures, primary first. -/
def initState : EnricherState :=
  { translation_cache := [], translation_fail_count := 0,
    use_google_translate := false }

/-- Python dict lookup `cache_key in self.translation_cache` /
`self.translation_cache[cache_key]`; insertion is modelled by consing, so
lookup must take the most recent binding. -/
def lookupCache : List (List Char × List Char) → List Char → Option (List Char)
  | [], _ => none
  | (k, v) :: rest, key => if k = key then some v else lookupCache rest key

/-- `metadata_enricher.py` line 161: `f"{text[:30]}_{from_lang}_{to_lang}"`. -/
def cacheKey (text from_lang to_lang : List Char) : List Char :=
  text.take 30 ++ ('_' :: from_lang) ++ ('_' :: to_lang)

/-- `metadata_enricher.py` lines 209 and 250: the quota sentinel test
`"MYMEMORY WARNING" in translated.upper() or "QUOTA EXCEEDED" in
translated.upper()` — a case-insensitive substring check on the response
body, not a status check. -/
def sentinel_detected (t : List Char) : Bool :=
  decide ("MYMEMORY WARNING".data <:+: t.map Char.toUpper) ||
    decide ("QUOTA EXCEEDED".data <:+: t.map Char.toUpper)

/-- Python `' '.join(translated_chunks)` (lines 189 and 273). -/
def joinSp : List (List Char) → List Char
  | [] => []
  | [x] => x
  | x :: y :: t => x ++ (' ' :: joinSp (y :: t))

/-- The body of the per-chunk loop of `translate_text`
(`metadata_enricher.py` lines 236-270): if the sticky flag is already set
use Google directly; otherwise try the primary backend, falling back to
Google (and bumping the failure count) on a quota sentinel or an
exception.  The secondary call itself never raises (`google_translate`
catches internally), so the nested `except` of lines 268-270 that would
keep the original chunk is reached exactly when the Google HTTP oracle
fails, in which case `google_translate` returns the chunk unchanged. -/
def translateChunkStep (env : TransEnv) (to_lang from_lang : List Char)
    (acc : List (List Char) × EnricherState) (chunk : List Char) :
    List (List Char) × EnricherState :=
  if acc.2.use_google_translate = true then
    (acc.1 ++ [google_translate env.google chunk to_lang from_lang], acc.2)
  else
    match env.primary to_lang from_lang chunk with
    | Except.ok tr =>
      if sentinel_detected tr = true then
        (acc.1 ++ [google_translate env.google chunk to_lang from_lang],
         { acc.2 with
             translation_fail_count := acc.2.translation_fail_count + 1,
             use_google_translate := true })
      else
        (acc.1 ++ [tr], acc.2)
    | Except.error _ =>
      (acc.1 ++ [google_translate env.google chunk to_lang from_lang],
       { acc.2 with
           translation_fail_count := acc.2.translation_fail_count + 1 })

/-- `MetadataEnricher.translate_text` (`metadata_enricher.py` lines
148-286) as a state-passing function: empty-text short circuit, Chinese
no-op check, cache lookup, sticky-Google gate (chunk size 900), then the
primary path (chunk size 450, the Python default `max_chunk_size`) with
single-chunk and multi-chunk branches.  Python's `if len(chunks) == 1:`
with `chunks[0]` is rendered as a match on the singleton list.  The outer
`except` of lines 280-286 is unreachable in this model because every
modelled effect is already caught where it occurs. -/
def translate_text (env : TransEnv) (st : EnricherState)
    (text to_lang from_lang : List Char) : List Char × EnricherState :=
  if text = [] then ([], st)
  else if to_lang = "zh".data ∧ contains_chinese text = true then (text, st)
  else
    match lookupCache st.translation_cache (cacheKey text from_lang to_lang) with
    | some cached => (cached, st)
    | none =>
      if 3 ≤ st.translation_fail_count ∨ st.use_google_translate = true then
        match chunk_text text 900 with
        | [c] =>
          (google_translate env.google c to_lang from_lang,
           { st with
               use_google_translate := true,
               translation_cache :=
                 (cacheKey text from_lang to_lang,
                  google_translate env.google c to_lang from_lang)
                   :: st.translation_cache })
        | chunks =>
          (joinSp (chunks.map (fun c => google_translate env.google c to_lang from_lang)),
           { st with
               use_google_translate := true,
               translation_cache :=
                 (cacheKey text from_lang to_lang,
                  joinSp (chunks.map (fun c => google_translate env.google c to_lang from_lang)))
                   :: st.translation_cache })
      else
        match chunk_text text 450 with
        | [c] =>
          match env.primary to_lang from_lang c with
          | Except.ok tr =>
            if sentinel_detected tr = true then
              (google_translate env.google c to_lang from_lang,
               { st with
                   translation_fail_count := st.translation_fail_count + 1,
                   use_google_translate := true,
                   translation_cache :=
                     (cacheKey text from_lang to_lang,
                      google_translate env.google c to_lang from_lang)
                       :: st.translation_cache })
            else
              (tr,
               { st with
                   translation_cache :=
                     (cacheKey text from_lang to_lang, tr) :: st.translation_cache })
          | Except.error _ =>
            (google_translate env.google c to_lang from_lang,
             { st with
                 translation_fail_count := st.translation_fail_count + 1,
                 translation_cache :=
                   (cacheKey text from_lang to_lang,
                    google_translate env.google c to_lang from_lang)
                     :: st.translation_cache })
        | chunks =>
          (joinSp (List.foldl (translateChunkStep env to_lang from_lang) ([], st) chunks).1,
           { (List.foldl (translateChunkStep env to_lang from_lang) ([], st) chunks).2 with
               translation_cache :=
                 (cacheKey text from_lang to_lang,
                  joinSp (List.foldl (translateChunkStep env to_lang from_lang) ([], st) chunks).1)
                   :: (List.foldl (translateChunkStep env to_lang from_lang)
                        ([], st) chunks).2.translation_cache })

theorem chunk_text_eq_single {text : List Char} {maxSize : Nat} (h1 : 1 ≤ maxSize)
    (hc : (chunk_text text maxSize).length = 1) : chunk_text text maxSize = [text] := by
  obtain ⟨a, ha⟩ := List.length_eq_one.mp hc
  have hj := @chunk_text_join_aux text maxSize h1
  rw [ha] at hj ⊢
  simp only [List.flatten_cons, List.flatten_nil, List.append_nil] at hj
  rw [hj]

theorem translateChunkStep_mono (env : TransEnv) (to_lang from_lang : List Char)
    (acc : List (List Char) × EnricherState) (chunk : List Char) :
    acc.2.translation_fail_count
        ≤ (translateChunkStep env to_lang from_lang acc chunk).2.translation_fail_count
      ∧ (acc.2.use_google_translate = true →
          (translateChunkStep env to_lang from_lang acc chunk).2.use_google_translate = true) := by
  unfold translateChunkStep
  by_cases hug : acc.2.use_google_translate = true
  · simp [hug]
  · rw [if_neg hug]
    cases env.primary to_lang from_lang chunk with
    | ok tr =>
      by_cases hs : sentinel_detected tr = true
      · simp [hs]
      · simp [hs]
    | error e => simp

theorem foldl_step_mono (env : TransEnv) (to_lang from_lang : List Char) :
    ∀ (chunks : List (List Char)) (acc : List (List Char) × EnricherState),
      acc.2.translation_fail_count
          ≤ (List.foldl (translateChunkStep env to_lang from_lang) acc chunks).2.translation_fail_count
        ∧ (acc.2.use_google_translate = true →
            (List.foldl (translateChunkStep env to_lang from_lang) acc chunks).2.use_google_translate
              = true) := by
  intro chunks
  induction chunks with
  | nil => intro acc; simp
  | cons c cs ih =>
    intro acc
    rw [List.foldl_cons]
    have h1 := translateChunkStep_mono env to_lang from_lang acc c
    have h2 := ih (translateChunkStep env to_lang from_lang acc c)
    exact ⟨le_trans h1.1 h2.1, fun h => h2.2 (h1.2 h)⟩

theorem translate_text_mono (env : TransEnv) (st : EnricherState)
    (text to_lang from_lang : List Char) :
    st.translation_fail_count
        ≤ (translate_text env st text to_lang from_lang).2.translation_fail_count
      ∧ (st.use_google_translate = true →
          (translate_text env st text to_lang from_lang).2.use_google_translate = true) := by
  unfold translate_text
  by_cases h0 : text = []
  · simp [h0]
  rw [if_neg h0]
  by_cases h1 : to_lang = "zh".data ∧ contains_chinese text = true
  · simp [h1]
  rw [if_neg h1]
  cases hcl : lookupCache st.translation_cache (cacheKey text from_lang to_lang) with
  | some v => simp [hcl]
  | none =>
    simp only [hcl]
    by_cases hg : 3 ≤ st.translation_fail_count ∨ st.use_google_translate = true
    · rw [if_pos hg]
      cases hch : chunk_text text 900 with
      | nil => exact ⟨le_refl _, fun _ => rfl⟩
      | cons c cs =>
        cases cs with
        | nil => exact ⟨le_refl _, fun _ => rfl⟩
        | cons c2 cs2 => exact ⟨le_refl _, fun _ => rfl⟩
    · rw [if_neg hg]
      cases hch : chunk_text text 450 with
      | nil =>
        have hf := foldl_step_mono env to_lang from_lang [] ([], st)
        exact ⟨hf.1, hf.2⟩
      | cons c cs =>
        cases cs with
        | nil =>
          dsimp only
          cases hp : env.primary to_lang from_lang c with
          | ok tr =>
            dsimp only
            by_cases hs : sentinel_detected tr = true
            · rw [if_pos hs]
              exact ⟨Nat.le_succ _, fun _ => rfl⟩
            · rw [if_neg hs]
              exact ⟨le_refl _, fun h => h⟩
          | error e =>
            exact ⟨Nat.le_succ _, fun h => h⟩
        | cons c2 cs2 =>
          have hf := foldl_step_mono env to_lang from_lang (c :: c2 :: cs2) ([], st)
          exact ⟨hf.1, hf.2⟩

theorem translate_text_google_only (env env' : TransEnv) (st : EnricherState)
    (text to_lang from_lang : List Char)
    (hgoog : env.google = env'.google)
    (hst : 3 ≤ st.translation_fail_count ∨ st.use_google_translate = true) :
    translate_text env st text to_lang from_lang
      = translate_text env' st text to_lang from_lang := by
  by_cases h0 : text = []
  · simp [translate_text, h0]
  by_cases h1 : to_lang = "zh".data ∧ contains_chinese text = true
  · simp [translate_text, h0, h1]
  cases hcl : lookupCache st.translation_cache (cacheKey text from_lang to_lang) with
  | some v => simp [translate_text, h0, h1, hcl]
  | none => simp [translate_text, h0, h1, hcl, hst, hgoog]

/-- C1: once the sticky flag is set or the failure count has reached 3, a
`translate_text` call depends only on the secondary (Google) backend — the
primary backend is never invoked, so two environments agreeing on the
Google oracle give identical results; and the session state is monotonic:
the failure count never decreases and the sticky flag is never cleared. -/
theorem translate_sticky_fallback (env env' : TransEnv) (st st₂ : EnricherState)
    (text to_lang from_lang text₂ to₂ from₂ : List Char)
    (hgoog : env.google = env'.google)
    (hst : 3 ≤ st.translation_fail_count ∨ st.use_google_translate = true) :
    translate_text env st text to_lang from_lang
        = translate_text env' st text to_lang from_lang
      ∧ st₂.translation_fail_count
          ≤ (translate_text env st₂ text₂ to₂ from₂).2.translation_fail_count
      ∧ (st₂.use_google_translate = true →
          (translate_text env st₂ text₂ to₂ from₂).2.use_google_translate = true) :=
  ⟨translate_text_google_only env env' st text to_lang from_lang hgoog hst,
   (translate_text_mono env st₂ text₂ to₂ from₂).1,
   (translate_text_mono env st₂ text₂ to₂ from₂).2⟩

/-- A working primary backend paired with a working Google backend. -/
def envPrimA : TransEnv :=
  { primary := fun _ _ c => Except.ok ('P' :: c),
    google := fun t _ _ => GOut.resp 200 (Except.ok [some ('G' :: t)]) }

/-- A failing primary backend paired with the same Google backend. -/
def envPrimB : TransEnv :=
  { primary := fun _ _ _ => Except.error (),
    google := fun t _ _ => GOut.resp 200 (Except.ok [some ('G' :: t)]) }

/-- A session whose sticky fallback flag is already set. -/
def stSticky : EnricherState :=
  { translation_cache := [], translation_fail_count := 0,
    use_google_translate := true }

theorem translate_sticky_fallback_witness :
    (envPrimA.google = envPrimB.google
        ∧ (3 ≤ stSticky.translation_fail_count ∨ stSticky.use_google_translate = true))
      ∧ (translate_text envPrimA stSticky ("hi".data) ("zh".data) ("en".data)
            = translate_text envPrimB stSticky ("hi".data) ("zh".data) ("en".data)
          ∧ initState.translation_fail_count
              ≤ (translate_text envPrimA initState ("hi".data) ("zh".data) ("en".data)).2.translation_fail_count
          ∧ (initState.use_google_translate = true →
              (translate_text envPrimA initState ("hi".data) ("zh".data) ("en".data)).2.use_google_translate
                = true)) :=
  ⟨⟨rfl, Or.inr rfl⟩,
   translate_sticky_fallback envPrimA envPrimB stSticky initState
     ("hi".data) ("zh".data) ("en".data) ("hi".data) ("zh".data) ("en".data)
     rfl (Or.inr rfl)⟩

/-- C8: if the target language is `"zh"` and the text already contains a
CJK codepoint, `translate_text` returns the text unchanged with the state
untouched — for any backend environment, so no backend is invoked. -/
theorem translate_noop_chinese (env : TransEnv) (st : EnricherState)
    (text from_lang : List Char) (h : contains_chinese text = true) :
    translate_text env st text ("zh".data) from_lang = (text, st) := by
  have hne : text ≠ [] := by
    intro he
    rw [he] at h
    simp [contains_chinese] at h
  unfold translate_text
  rw [if_neg hne, if_pos ⟨rfl, h⟩]

theorem translate_noop_chinese_witness :
    contains_chinese ("你好".data) = true
      ∧ translate_text envPrimA initState ("你好".data) ("zh".data) ("en".data)
          = ("你好".data, initState) :=
  ⟨by decide,
   translate_noop_chinese envPrimA initState ("你好".data) ("en".data) (by decide)⟩

/-- C4: within one session, a second `translate_text` call with identical
text and language pair returns exactly the first call's result and leaves
the state unchanged, for an arbitrary second environment — the first
completed call stored its result in the cache under the key
`cacheKey` (first 30 characters plus the language pair), and the second
call is served from the cache without invoking any backend. -/
theorem translate_cache_idempotent (env env' : TransEnv) (st : EnricherState)
    (text to_lang from_lang : List Char) :
    translate_text env' (translate_text env st text to_lang from_lang).2 text to_lang from_lang
      = translate_text env st text to_lang from_lang := by
  by_cases h0 : text = []
  · simp [translate_text, h0]
  by_cases h1 : to_lang = "zh".data ∧ contains_chinese text = true
  · simp [translate_text, h0, h1]
  cases hcl : lookupCache st.translation_cache (cacheKey text from_lang to_lang) with
  | some v => simp [translate_text, h0, h1, hcl]
  | none =>
    by_cases hg : 3 ≤ st.translation_fail_count ∨ st.use_google_translate = true
    · cases hch : chunk_text text 900 with
      | nil => simp [translate_text, h0, h1, hcl, hg, hch, lookupCache]
      | cons c cs =>
        cases cs with
        | nil => simp [translate_text, h0, h1, hcl, hg, hch, lookupCache]
        | cons c2 cs2 => simp [translate_text, h0, h1, hcl, hg, hch, lookupCache]
    · cases hch : chunk_text text 450 with
      | nil => simp [translate_text, h0, h1, hcl, hg, hch, lookupCache]
      | cons c cs =>
        cases cs with
        | nil =>
          cases hp : env.primary to_lang from_lang c with
          | ok tr =>
            by_cases hs : sentinel_detected tr = true
            · simp [translate_text, h0, h1, hcl, hg, hch, hp, hs, lookupCache]
            · simp [translate_text, h0, h1, hcl, hg, hch, hp, hs, lookupCache]
          | error e =>
            simp [translate_text, h0, h1, hcl, hg, hch, hp, lookupCache]
        | cons c2 cs2 => simp [translate_text, h0, h1, hcl, hg, hch, lookupCache]

/-- C2: when the primary backend's response body for a chunk carries the
quota sentinel, `translate_text` treats the call as failed: on the
single-chunk path the failure count goes up by exactly 1, the sticky flag
becomes true, and the returned (and cached) value for the chunk is the
secondary backend's response; the per-chunk loop step of the multi-chunk
path behaves the same way. -/
theorem translate_quota_sentinel (env : TransEnv) (st st₂ : EnricherState)
    (text to_lang from_lang tr : List Char) (ts : List (List Char)) (c tr₂ : List Char)
    (hne : text ≠ [])
    (hnz : ¬ (to_lang = "zh".data ∧ contains_chinese text = true))
    (hmiss : lookupCache st.translation_cache (cacheKey text from_lang to_lang) = none)
    (hgate : ¬ (3 ≤ st.translation_fail_count ∨ st.use_google_translate = true))
    (hsingle : text.length ≤ 450)
    (hp : env.primary to_lang from_lang text = Except.ok tr)
    (hs : sentinel_detected tr = true)
    (h2ug : st₂.use_google_translate = false)
    (h2p : env.primary to_lang from_lang c = Except.ok tr₂)
    (h2s : sentinel_detected tr₂ = true) :
    translate_text env st text to_lang from_lang
        = (google_translate env.google text to_lang from_lang,
           { st with
               translation_fail_count := st.translation_fail_count + 1,
               use_google_translate := true,
               translation_cache :=
                 (cacheKey text from_lang to_lang,
                  google_translate env.google text to_lang from_lang)
                   :: st.translation_cache })
      ∧ translateChunkStep env to_lang from_lang (ts, st₂) c
          = (ts ++ [google_translate env.google c to_lang from_lang],
             { st₂ with
                 translation_fail_count := st₂.translation_fail_count + 1,
                 use_google_translate := true }) := by
  constructor
  · have hch : chunk_text text 450 = [text] := chunk_text_of_le hsingle
    simp [translate_text, hne, hnz, hmiss, hgate, hch, hp, hs]
  · simp [translateChunkStep, h2ug, h2p, h2s]

/-- A primary backend that always answers with the quota sentinel in the
response body, with a working Google backend. -/
def envSentinel : TransEnv :=
  { primary := fun _ _ _ => Except.ok ("MYMEMORY WARNING: QUOTA EXCEEDED".data),
    google := fun t _ _ => GOut.resp 200 (Except.ok [some ('G' :: t)]) }

theorem translate_quota_sentinel_witness :
    sentinel_detected ("MYMEMORY WARNING: QUOTA EXCEEDED".data) = true
      ∧ (translate_text envSentinel initState ("hi".data) ("zh".data) ("en".data)
            = (google_translate envSentinel.google ("hi".data) ("zh".data) ("en".data),
               { initState with
                   translation_fail_count := initState.translation_fail_count + 1,
                   use_google_translate := true,
                   translation_cache :=
                     (cacheKey ("hi".data) ("en".data) ("zh".data),
                      google_translate envSentinel.google ("hi".data) ("zh".data) ("en".data))
                       :: initState.translation_cache })
          ∧ translateChunkStep envSentinel ("zh".data) ("en".data) ([], initState) ("ok".data)
              = ([] ++ [google_translate envSentinel.google ("ok".data) ("zh".data) ("en".data)],
                 { initState with
                     translation_fail_count := initState.translation_fail_count + 1,
                     use_google_translate := true })) :=
  ⟨by decide,
   translate_quota_sentinel envSentinel initState initState
     ("hi".data) ("zh".data) ("en".data) ("MYMEMORY WARNING: QUOTA EXCEEDED".data)
     [] ("ok".data) ("MYMEMORY WARNING: QUOTA EXCEEDED".data)
     (by decide) (by decide) rfl (by decide) (by decide) rfl (by decide)
     rfl rfl (by decide)⟩

theorem joinSp_mem_infix {c : List Char} :
    ∀ {l : List (List Char)}, c ∈ l → c <:+: joinSp l := by
  intro l
  induction l with
  | nil => intro h; simp at h
  | cons x xs ih =>
    intro h
    cases xs with
    | nil =>
      simp only [List.mem_singleton] at h
      subst h
      exact List.infix_rfl
    | cons y t =>
      rcases List.mem_cons.mp h with rfl | hmem
      · exact ⟨[], ' ' :: joinSp (y :: t), by simp [joinSp]⟩
      · obtain ⟨s, u, hsu⟩ := ih hmem
        refine ⟨x ++ (' ' :: s), u, ?_⟩
        simp only [joinSp, ← hsu, List.append_assoc, List.cons_append]

theorem joinSp_ne_nil {l : List (List Char)} (hl : l ≠ [])
    (hx : ∀ x ∈ l, x ≠ []) : joinSp l ≠ [] := by
  cases l with
  | nil => simp at hl
  | cons x xs =>
    cases xs with
    | nil => simpa [joinSp] using hx x (by simp)
    | cons y t => simp [joinSp]

theorem foldl_all_fail (env : TransEnv) (to_lang from_lang : List Char)
    (hp : env.primary = fun _ _ _ => Except.error ())
    (hg : env.google = fun _ _ _ => GOut.raise) :
    ∀ (chunks ts : List (List Char)) (st : EnricherState),
      st.use_google_translate = false →
      (List.foldl (translateChunkStep env to_lang from_lang) (ts, st) chunks).1
        = ts ++ chunks := by
  intro chunks
  induction chunks with
  | nil => intro ts st hug; simp
  | cons c cs ih =>
    intro ts st hug
    rw [List.foldl_cons]
    have hstep : translateChunkStep env to_lang from_lang (ts, st) c
        = (ts ++ [c],
           { st with translation_fail_count := st.translation_fail_count + 1 }) := by
      simp [translateChunkStep, hug, hp, hg, google_translate]
    rw [hstep, ih (ts ++ [c]) _ (by simp [hug])]
    simp

/-- C3: `translate_text` is a total function into strings — no exception
reaches the caller for any backend behavior — and when the primary backend
raises on every chunk and the secondary backend's HTTP layer also fails,
the result is the space-joined list of original chunks: every chunk of the
original text appears untranslated inside the returned string, which is
non-empty. -/
theorem translate_degrade_to_original (env : TransEnv) (st : EnricherState)
    (text to_lang from_lang : List Char)
    (hne : text ≠ [])
    (hnz : ¬ (to_lang = "zh".data ∧ contains_chinese text = true))
    (hmiss : lookupCache st.translation_cache (cacheKey text from_lang to_lang) = none)
    (hgate : ¬ (3 ≤ st.translation_fail_count ∨ st.use_google_translate = true))
    (hp : env.primary = fun _ _ _ => Except.error ())
    (hg : env.google = fun _ _ _ => GOut.raise) :
    (translate_text env st text to_lang from_lang).1 = joinSp (chunk_text text 450)
      ∧ (∀ c ∈ chunk_text text 450, c <:+: (translate_text env st text to_lang from_lang).1)
      ∧ (translate_text env st text to_lang from_lang).1 ≠ [] := by
  have hug : st.use_google_translate = false := by
    cases hb : st.use_google_translate with
    | false => rfl
    | true => exact absurd (Or.inr hb) hgate
  have hmain : (translate_text env st text to_lang from_lang).1
      = joinSp (chunk_text text 450) := by
    cases hch : chunk_text text 450 with
    | nil => simp [translate_text, hne, hnz, hmiss, hgate, hch]
    | cons c cs =>
      cases cs with
      | nil =>
        have hpc : env.primary to_lang from_lang c = Except.error () := by rw [hp]
        have hgc : google_translate env.google c to_lang from_lang = c := by
          simp [google_translate, hg]
        simp [translate_text, hne, hnz, hmiss, hgate, hch, hpc, hgc, joinSp]
      | cons c2 cs2 =>
        have hfold := foldl_all_fail env to_lang from_lang hp hg (c :: c2 :: cs2) [] st hug
        simp only [translate_text, if_neg hne, if_neg hnz, hmiss, if_neg hgate, hch]
        rw [hfold]
        rfl
  refine ⟨hmain, ?_, ?_⟩
  · intro c hc
    rw [hmain]
    exact joinSp_mem_infix hc
  · rw [hmain]
    exact joinSp_ne_nil (chunk_text_ne_nil text 450)
      (chunk_text_mem_ne (by omega) hne)

/-- An environment in which the primary backend always raises and the
secondary backend's HTTP request always raises. -/
def envFailAll : TransEnv :=
  { primary := fun _ _ _ => Except.error (),
    google := fun _ _ _ => GOut.raise }

theorem translate_degrade_to_original_witness :
    ("hello".data ≠ [] ∧ envFailAll.primary = fun _ _ _ => Except.error ())
      ∧ ((translate_text envFailAll initState ("hello".data) ("zh".data) ("en".data)).1
            = joinSp (chunk_text ("hello".data) 450)
          ∧ (∀ c ∈ chunk_text ("hello".data) 450,
              c <:+: (translate_text envFailAll initState ("hello".data) ("zh".data) ("en".data)).1)
          ∧ (translate_text envFailAll initState ("hello".data) ("zh".data) ("en".data)).1 ≠ []) :=
  ⟨⟨by decide, rfl⟩,
   translate_degrade_to_original envFailAll initState
     ("hello".data) ("zh".data) ("en".data)
     (by decide) (by decide) rfl (by decide) rfl rfl⟩

/-- One topic entry of the Semantic Scholar response: a dict whose `name`
key may be absent or null (`topic.get('name')`). -/
structure SemTopic where
  name : Option (List Char)
deriving DecidableEq

/-- The JSON body of a Semantic Scholar paper response, restricted to the
keys read by `enrich_with_semantic_scholar`.  `none` models an absent or
null key (Python `dict.get` returns the default in the first case and
`None` in the second; the enricher treats the fields it defaults the same
way either way except for `get`'s absent-key defaults, which this model
applies through `Option.getD`). -/
structure SemJson where
  citationCount : Option Nat
  influentialCitationCount : Option Nat
  venue : Option (List Char)
  year : Option Int
  doi : Option (List Char)
  url : Option (List Char)
  isOpenAccess : Option Bool
  topics : Option (List SemTopic)

/-- The enriched-metadata record built at
`metadata_enricher.py` lines 38-47. -/
structure AdditionalData where
  citation_count : Nat
  influence_factor : Nat
  published_in : List Char
  year : Option Int
  doi : Option (List Char)
  url : Option (List Char)
  is_open_access : Bool
  topics : List (Option (List Char))

/-- Outcome of the Semantic Scholar HTTP request: `requests.get` (or the
later `response.json()`) may raise, or it yields a status code and a body
that may or may not parse. -/
inductive SemOut where
  | raise : SemOut
  | resp : Nat → Except Unit SemJson → SemOut

/-- `metadata_enricher.py` lines 22-24: strip a leading `'arxiv:'` prefix
from the identifier before building the request URL. -/
def stripArxiv (arxiv_id : List Char) : List Char :=
  if "arxiv:".data <+: arxiv_id then arxiv_id.drop 6 else arxiv_id

/-- `metadata_enricher.py` lines 38-47: the fields extracted from a
successful response, with the source's defaults (`0`, `0`, `"未知"`,
`False`, `[]`); `topics` is the truthiness-guarded comprehension
`[topic.get('name') for topic in data.get('topics', [])] if
data.get('topics') else []`. -/
def mkAdditionalData (d : SemJson) : AdditionalData :=
  { citation_count := d.citationCount.getD 0,
    influence_factor := d.influentialCitationCount.getD 0,
    published_in := d.venue.getD ("未知".data),
    year := d.year,
    doi := d.doi,
    url := d.url,
    is_open_access := d.isOpenAccess.getD false,
    topics :=
      match d.topics with
      | some ts => if ts = [] then [] else ts.map SemTopic.name
      | none => [] }

/-- `MetadataEnricher.enrich_with_semantic_scholar`
(`metadata_enricher.py` lines 18-56) over the HTTP oracle `sem`, which is
applied to the normalized identifier.  `none` stands for the empty dict
returned on any failure path. -/
def enrich_with_semantic_scholar (sem : List Char → SemOut)
    (arxiv_id : List Char) : Option AdditionalData :=
  match sem (stripArxiv arxiv_id) with
  | SemOut.raise => none
  | SemOut.resp status json =>
    if status = 200 then
      match json with
      | Except.error _ => none
      | Except.ok d => some (mkAdditionalData d)
    else none

/-- C10: enrichment never propagates an exception: a raising call or a
non-200 status yields the empty mapping, a successful parse yields the
mapping with the enrichment fields, and a leading `'arxiv:'` prefix is
stripped from the identifier before the request is built. -/
theorem enrich_best_effort (sem sem₂ sem₃ : List Char → SemOut)
    (arxiv_id id₂ id₃ x : List Char) (d : SemJson) (status : Nat)
    (json : Except Unit SemJson)
    (hok : sem (stripArxiv arxiv_id) = SemOut.resp 200 (Except.ok d))
    (hraise : sem₂ (stripArxiv id₂) = SemOut.raise)
    (hbad : sem₃ (stripArxiv id₃) = SemOut.resp status json)
    (hnst : status ≠ 200) :
    enrich_with_semantic_scholar sem arxiv_id = some (mkAdditionalData d)
      ∧ enrich_with_semantic_scholar sem₂ id₂ = none
      ∧ enrich_with_semantic_scholar sem₃ id₃ = none
      ∧ stripArxiv ("arxiv:".data ++ x) = x := by
  refine ⟨?_, ?_, ?_, ?_⟩
  · simp [enrich_with_semantic_scholar, hok]
  · simp [enrich_with_semantic_scholar, hraise]
  · simp [enrich_with_semantic_scholar, hbad, hnst]
  · unfold stripArxiv
    rw [if_pos ⟨x, rfl⟩]
    rw [show (6 : Nat) = ("arxiv:".data).length from rfl]
    exact List.drop_left _ _

/-- A sample parsed Semantic Scholar body. -/
def semSample : SemJson :=
  { citationCount := some 7,
    influentialCitationCount := none,
    venue := some ("ICML".data),
    year := some 2021,
    doi := none,
    url := some ("u".data),
    isOpenAccess := some true,
    topics := some [{ name := some ("ml".data) }, { name := none }] }

theorem enrich_best_effort_witness :
    ((fun _ => SemOut.resp 200 (Except.ok semSample)) (stripArxiv ("arxiv:1234.5".data))
          = SemOut.resp 200 (Except.ok semSample)
        ∧ (404 : Nat) ≠ 200)
      ∧ (enrich_with_semantic_scholar (fun _ => SemOut.resp 200 (Except.ok semSample))
            ("arxiv:1234.5".data) = some (mkAdditionalData semSample)
          ∧ enrich_with_semantic_scholar (fun _ => SemOut.raise) ("1234.5".data) = none
          ∧ enrich_with_semantic_scholar (fun _ => SemOut.resp 404 (Except.error ()))
              ("1234.5".data) = none
          ∧ stripArxiv ("arxiv:".data ++ "9876".data) = "9876".data) :=
  ⟨⟨rfl, by decide⟩,
   enrich_best_effort (fun _ => SemOut.resp 200 (Except.ok semSample))
     (fun _ => SemOut.raise) (fun _ => SemOut.resp 404 (Except.error ()))
     ("arxiv:1234.5".data) ("1234.5".data) ("1234.5".data) ("9876".data)
     semSample 404 (Except.error ()) rfl rfl rfl (by decide)⟩
